import Mathlib

set_option maxRecDepth 20000

/-!
Verification of the Prasaran stream-viewer URL resolver (src/main.ts).

The development shallowly embeds the URL-resolution core of the program:
platform detection, YouTube video-id extraction, embed-URL construction and
the top-level parseStreamUrl, together with models of the JavaScript
primitives the code relies on: the WHATWG URL constructor (hostname,
pathname, searchParams), encodeURIComponent / decodeURIComponent (UTF-8
percent-encoding) and application/x-www-form-urlencoded query decoding.

Modelling notes (simplifications of the host platform, all documented at the
definition they concern):
* strings are sequences of Unicode scalar values (Lean Char); a separate
  UTF-16 code-unit model is used where surrogate behaviour matters;
* the URL parser model requires the // authority form for special schemes,
  keeps the path as written (no dot-segment or percent-encoding
  normalisation) and does not perform IDNA processing of hostnames.
-/

/-- Uppercase hexadecimal digit character for a value below 16, as produced
by the JavaScript percent-encoding primitives. -/
def hexDigitChar (n : Nat) : Char :=
  if n < 10 then Char.ofNat (48 + n) else Char.ofNat (55 + n)

/-- Value of a hexadecimal digit character (either case), none otherwise. -/
def hexVal (c : Char) : Option Nat :=
  if 48 ≤ c.toNat ∧ c.toNat ≤ 57 then some (c.toNat - 48)
  else if 65 ≤ c.toNat ∧ c.toNat ≤ 70 then some (c.toNat - 55)
  else if 97 ≤ c.toNat ∧ c.toNat ≤ 102 then some (c.toNat - 87)
  else none

/-- UTF-8 byte sequence of a Unicode scalar value. -/
def utf8Bytes (n : Nat) : List Nat :=
  if n < 128 then [n]
  else if n < 2048 then [192 + n / 64, 128 + n % 64]
  else if n < 65536 then [224 + n / 4096, 128 + (n / 64) % 64, 128 + n % 64]
  else [240 + n / 262144, 128 + (n / 4096) % 64, 128 + (n / 64) % 64, 128 + n % 64]

/-- Percent-encoding of one byte: a percent sign followed by two uppercase
hexadecimal digits, as produced by encodeURIComponent. -/
def pctEncodeByte (b : Nat) : List Char :=
  ['%', hexDigitChar (b / 16), hexDigitChar (b % 16)]

/-- Percent-encoding of a byte sequence. -/
def pctBytes : List Nat → List Char
  | [] => []
  | b :: bs => pctEncodeByte b ++ pctBytes bs

/-- Characters left unescaped by encodeURIComponent: ASCII letters, digits
and - _ . ! ~ * ( ) together with the apostrophe (code point 39). -/
def isUnreservedChar (c : Char) : Bool :=
  c.isAlpha || c.isDigit || c = '-' || c = '_' || c = '.' || c = '!' ||
  c = '~' || c = '*' || c.toNat = 39 || c = '(' || c = ')'

/-- Model of JavaScript encodeURIComponent on a scalar-value string: every
character outside the unreserved set is replaced by the percent-encoding of
its UTF-8 bytes. -/
def encodeChars : List Char → List Char
  | [] => []
  | c :: cs =>
    (if isUnreservedChar c then [c] else pctBytes (utf8Bytes c.toNat)) ++ encodeChars cs

/-- Model of JavaScript encodeURIComponent. -/
def encodeURIComponent (s : String) : String :=
  String.mk (encodeChars s.data)

/-- Reading of one percent-encoded byte: a percent sign followed by two
hexadecimal digits; returns the byte value and the remaining characters. -/
def pctByteAt : List Char → Option (Nat × List Char)
  | '%' :: h1 :: h2 :: cs =>
    match hexVal h1, hexVal h2 with
    | some x, some y => some (16 * x + y, cs)
    | _, _ => none
  | _ => none

/-- Decoding of one character of a percent-encoded string as JavaScript
decodeURIComponent performs it: a character other than the percent sign
passes through; a percent sign starts a percent-encoded byte whose value
determines how many further percent-encoded continuation bytes must follow,
and the byte group is strictly decoded as UTF-8 (overlong forms, surrogates
and out-of-range values are rejected); none models a URIError. -/
def decodeOne (cs : List Char) : Option (Char × List Char) :=
  match cs with
  | [] => none
  | c :: cs0 =>
    if c = '%' then
      match pctByteAt cs with
      | none => none
      | some (b1, r1) =>
        if b1 < 128 then some (Char.ofNat b1, r1)
        else if b1 < 192 then none
        else if b1 < 224 then
          match pctByteAt r1 with
          | some (b2, r2) =>
            let n := (b1 - 192) * 64 + (b2 - 128)
            if 128 ≤ b2 ∧ b2 < 192 ∧ 128 ≤ n then some (Char.ofNat n, r2)
            else none
          | none => none
        else if b1 < 240 then
          match pctByteAt r1 with
          | some (b2, r2) =>
            match pctByteAt r2 with
            | some (b3, r3) =>
              let n := (b1 - 224) * 4096 + (b2 - 128) * 64 + (b3 - 128)
              if 128 ≤ b2 ∧ b2 < 192 ∧ 128 ≤ b3 ∧ b3 < 192 ∧ 2048 ≤ n ∧
                  (n < 55296 ∨ 57343 < n) then
                some (Char.ofNat n, r3)
              else none
            | none => none
          | none => none
        else if b1 < 248 then
          match pctByteAt r1 with
          | some (b2, r2) =>
            match pctByteAt r2 with
            | some (b3, r3) =>
              match pctByteAt r3 with
              | some (b4, r4) =>
                let n := (b1 - 240) * 262144 + (b2 - 128) * 4096 + (b3 - 128) * 64 +
                  (b4 - 128)
                if 128 ≤ b2 ∧ b2 < 192 ∧ 128 ≤ b3 ∧ b3 < 192 ∧ 128 ≤ b4 ∧ b4 < 192 ∧
                    65536 ≤ n ∧ n < 1114112 then
                  some (Char.ofNat n, r4)
                else none
              | none => none
            | none => none
          | none => none
        else none
    else some (c, cs0)

/-- Fuel-driven decoding loop over decodeOne (each step consumes at least
one character, so fuel equal to the input length always suffices). -/
def decodeCharsAux : Nat → List Char → Option (List Char)
  | _, [] => some []
  | 0, _ :: _ => none
  | fuel + 1, c :: cs =>
    match decodeOne (c :: cs) with
    | some (ch, rest) => (decodeCharsAux fuel rest).map (fun t => ch :: t)
    | none => none

/-- Model of JavaScript decodeURIComponent on character lists; none models
a thrown URIError. -/
def decodeChars (cs : List Char) : Option (List Char) :=
  decodeCharsAux cs.length cs

/-- Model of JavaScript decodeURIComponent; none models a thrown URIError. -/
def decodeURIComponent (s : String) : Option String :=
  (decodeChars s.data).map String.mk

/-- Substring containment on character lists, the model of the JavaScript
String.prototype.includes test used on hostnames. -/
def hasSubstr : List Char → List Char → Bool
  | [], pat => pat.isEmpty
  | c :: cs, pat => pat.isPrefixOf (c :: cs) || hasSubstr cs pat

/-- Substring containment on strings (JavaScript includes). -/
def strContains (s pat : String) : Bool :=
  hasSubstr s.data pat.data

/-- Split of a character list at every occurrence of a separator, the model
of JavaScript String.prototype.split with a single-character separator. -/
def splitChar (sep : Char) : List Char → List (List Char)
  | [] => [[]]
  | c :: cs =>
    if c = sep then [] :: splitChar sep cs
    else
      match splitChar sep cs with
      | h :: t => (c :: h) :: t
      | [] => [[c]]

/-- Loose percent-plus-UTF-8 decoding used by URLSearchParams
(application/x-www-form-urlencoded), written with a fuel argument (one unit
per emitted character; each step consumes at least one input character, so
fuel equal to the input length always suffices): a percent sign with two
hexadecimal digits contributes a byte, byte groups are decoded as UTF-8,
malformed percent signs stay literal and invalid byte sequences produce
U+FFFD with decoding resuming after the offending lead byte. -/
def decodeLooseAux : Nat → List Char → List Char
  | 0, _ => []
  | _ + 1, [] => []
  | fuel + 1, c :: cs =>
    if c = '%' then
      match cs with
      | h1 :: h2 :: cs1 =>
        match hexVal h1, hexVal h2 with
        | some x1, some y1 =>
          let b1 := 16 * x1 + y1
          if b1 < 128 then Char.ofNat b1 :: decodeLooseAux fuel cs1
          else if b1 < 194 then Char.ofNat 65533 :: decodeLooseAux fuel cs1
          else if b1 < 224 then
            match cs1 with
            | '%' :: h3 :: h4 :: cs2 =>
              match hexVal h3, hexVal h4 with
              | some x2, some y2 =>
                let b2 := 16 * x2 + y2
                if 128 ≤ b2 ∧ b2 < 192 then
                  Char.ofNat ((b1 - 192) * 64 + (b2 - 128)) :: decodeLooseAux fuel cs2
                else Char.ofNat 65533 :: decodeLooseAux fuel cs1
              | _, _ => Char.ofNat 65533 :: decodeLooseAux fuel cs1
            | _ => Char.ofNat 65533 :: decodeLooseAux fuel cs1
          else if b1 < 240 then
            match cs1 with
            | '%' :: h3 :: h4 :: '%' :: h5 :: h6 :: cs2 =>
              match hexVal h3, hexVal h4, hexVal h5, hexVal h6 with
              | some x2, some y2, some x3, some y3 =>
                let b2 := 16 * x2 + y2
                let b3 := 16 * x3 + y3
                let n := (b1 - 224) * 4096 + (b2 - 128) * 64 + (b3 - 128)
                if 128 ≤ b2 ∧ b2 < 192 ∧ 128 ≤ b3 ∧ b3 < 192 ∧ 2048 ≤ n ∧
                    (n < 55296 ∨ 57343 < n) then
                  Char.ofNat n :: decodeLooseAux fuel cs2
                else Char.ofNat 65533 :: decodeLooseAux fuel cs1
              | _, _, _, _ => Char.ofNat 65533 :: decodeLooseAux fuel cs1
            | _ => Char.ofNat 65533 :: decodeLooseAux fuel cs1
          else if b1 < 245 then
            match cs1 with
            | '%' :: h3 :: h4 :: '%' :: h5 :: h6 :: '%' :: h7 :: h8 :: cs2 =>
              match hexVal h3, hexVal h4, hexVal h5, hexVal h6, hexVal h7, hexVal h8 with
              | some x2, some y2, some x3, some y3, some x4, some y4 =>
                let b2 := 16 * x2 + y2
                let b3 := 16 * x3 + y3
                let b4 := 16 * x4 + y4
                let n := (b1 - 240) * 262144 + (b2 - 128) * 4096 + (b3 - 128) * 64 +
                  (b4 - 128)
                if 128 ≤ b2 ∧ b2 < 192 ∧ 128 ≤ b3 ∧ b3 < 192 ∧ 128 ≤ b4 ∧ b4 < 192 ∧
                    65536 ≤ n ∧ n < 1114112 then
                  Char.ofNat n :: decodeLooseAux fuel cs2
                else Char.ofNat 65533 :: decodeLooseAux fuel cs1
              | _, _, _, _, _, _ => Char.ofNat 65533 :: decodeLooseAux fuel cs1
            | _ => Char.ofNat 65533 :: decodeLooseAux fuel cs1
          else Char.ofNat 65533 :: decodeLooseAux fuel cs1
        | _, _ => '%' :: decodeLooseAux fuel cs
      | _ => '%' :: decodeLooseAux fuel cs
    else c :: decodeLooseAux fuel cs

/-- Loose percent-plus-UTF-8 decoding of a whole character list. -/
def decodeLoose (cs : List Char) : List Char :=
  decodeLooseAux cs.length cs

/-- Form-urlencoded decoding of one token: plus signs become spaces, then
percent sequences are decoded loosely, as URLSearchParams does. -/
def formDecode (cs : List Char) : List Char :=
  decodeLoose (cs.map (fun c => if c = '+' then ' ' else c))

/-- First value bound to a name in a query string, the model of
URLSearchParams.get: the query splits on ampersands, empty pieces are
skipped, each piece splits at its first equals sign, and names and values
are form-urlencoded-decoded; none models the null returned when the name
is absent (URLSearchParams.has is modelled by isSome of this). -/
def searchParamsGet (query name : String) : Option String :=
  let pairs := (splitChar '&' query.data).filter (fun p => p ≠ [])
  match pairs.find? (fun p => formDecode (p.takeWhile (fun c => c ≠ '=')) == name.data) with
  | some p => some (String.mk (formDecode ((p.dropWhile (fun c => c ≠ '=')).drop 1)))
  | none => none

/-- ASCII lowercasing of a string, character by character (the model of
JavaScript toLowerCase as applied to hostnames, which are ASCII after
parsing). -/
def lowerStr (s : String) : String :=
  String.mk (s.data.map Char.toLower)

/-- Parsed absolute URL: the components of the WHATWG URL record that the
program reads (scheme, hostname, pathname, query). -/
structure URLRecord where
  scheme : String
  host : String
  path : String
  query : String
deriving Repr, DecidableEq

/-- Schemes the WHATWG standard calls special (they require an authority). -/
def isSpecialScheme (s : String) : Bool :=
  s = "http" || s = "https" || s = "ws" || s = "wss" || s = "ftp" || s = "file"

/-- Characters the WHATWG parser forbids inside a hostname (the forbidden
host/domain code points that can appear here; the null byte cannot occur in
a scalar-value model). -/
def isForbiddenHostChar (c : Char) : Bool :=
  c = ' ' || c.toNat = 9 || c.toNat = 10 || c.toNat = 13 || c = '#' || c = '/' ||
  c = ':' || c = '?' || c = '@' || c = '[' || c = ']' || c.toNat = 92 || c = '<' ||
  c = '>' || c = '^' || c = '|' || c = '%'

/-- Characters after the first that a URL scheme may contain. -/
def isSchemeChar (c : Char) : Bool :=
  c.isAlpha || c.isDigit || c = '+' || c = '-' || c = '.'

/-- Host and optional port of an authority (userinfo already removed): an
opening bracket starts an IPv6-style host running to the closing bracket,
otherwise the host runs to the first colon; a port, when present, must be a
(possibly empty) digit sequence. Returns the host characters, or none when
the shape is invalid. -/
def parseHostPort (hp : List Char) : Option (List Char) :=
  match hp with
  | '[' :: rest =>
    let inside := rest.takeWhile (fun c => c ≠ ']')
    match rest.drop inside.length with
    | ']' :: portPart =>
      match portPart with
      | [] => some ('[' :: (inside ++ [']']))
      | ':' :: p => if p.all (fun c => c.isDigit) then some ('[' :: (inside ++ [']'])) else none
      | _ => none
    | _ => none
  | _ =>
    let host := hp.takeWhile (fun c => c ≠ ':')
    match hp.dropWhile (fun c => c ≠ ':') with
    | [] => some host
    | _ :: p => if p.all (fun c => c.isDigit) then some host else none

/-- Authority characters with any userinfo removed: everything after the
last at sign, as in the WHATWG parser. -/
def stripUserinfo (auth : List Char) : List Char :=
  (auth.reverse.takeWhile (fun c => c ≠ '@')).reverse

/-- Model of the JavaScript URL constructor restricted to the components the
program reads; none models the TypeError thrown on invalid input. The model
requires a valid scheme followed by a colon; with a // authority it splits
userinfo, host and port, rejects forbidden host characters and empty hosts,
and lowercases scheme and host; without // only non-special schemes are
accepted (opaque path, empty hostname). Simplifications relative to WHATWG:
special-scheme inputs without // are rejected rather than repaired, the
path is kept as written (no dot-segment resolution or percent-encoding
normalisation), ports are not range-checked, hostnames get ASCII
lowercasing but no IDNA mapping, and interior tabs and newlines are not
stripped. -/
def parseURL (s : String) : Option URLRecord :=
  let cs := s.data
  let schemeChars := cs.takeWhile (fun c => c ≠ ':')
  match cs.dropWhile (fun c => c ≠ ':') with
  | [] => none
  | _ :: afterColon =>
    match schemeChars with
    | [] => none
    | c0 :: crest =>
      if c0.isAlpha && crest.all isSchemeChar then
        let scheme := String.mk (schemeChars.map Char.toLower)
        match afterColon with
        | '/' :: '/' :: r2 =>
          let authority := r2.takeWhile (fun c => !(c = '/' || c = '?' || c = '#'))
          let afterAuth := r2.drop authority.length
          match parseHostPort (stripUserinfo authority) with
          | none => none
          | some hostChars =>
            if hostChars = [] then none
            else if hostChars.any isForbiddenHostChar then none
            else
              let host := String.mk (hostChars.map Char.toLower)
              let pathChars := afterAuth.takeWhile (fun c => !(c = '?' || c = '#'))
              let afterPath := afterAuth.drop pathChars.length
              let path := if pathChars = [] ∧ isSpecialScheme scheme then "/"
                else String.mk pathChars
              let query :=
                match afterPath with
                | '?' :: q => String.mk (q.takeWhile (fun c => c ≠ '#'))
                | _ => ""
              some ⟨scheme, host, path, query⟩
        | _ =>
          if isSpecialScheme scheme then none
          else
            let pathChars := afterColon.takeWhile (fun c => !(c = '?' || c = '#'))
            let afterPath := afterColon.drop pathChars.length
            let query :=
              match afterPath with
              | '?' :: q => String.mk (q.takeWhile (fun c => c ≠ '#'))
              | _ => ""
            some ⟨scheme, "", String.mk pathChars, query⟩
      else none

/-- Supported streaming platforms (the TypeScript type also admits null,
modelled as Option Platform). -/
inductive Platform
  | youtube
  | facebook
deriving Repr, DecidableEq

/-- Result of URL parsing, mirroring the ParseResult interface of main.ts. -/
structure ParseResult where
  platform : Option Platform
  embedUrl : Option String
  error : Option String
deriving Repr, DecidableEq

/-- Window size preset, mirroring the SizePreset interface of main.ts. -/
structure SizePreset where
  width : Nat
  height : Nat
  label : String
deriving Repr, DecidableEq

/-- Height of the control bar in pixels (main.ts CONTROL_BAR_HEIGHT). -/
def CONTROL_BAR_HEIGHT : Nat := 50

/-- Available window size presets (main.ts SIZE_PRESETS, as a lookup). -/
def SIZE_PRESETS (key : String) : Option SizePreset :=
  if key = "1920x1080" then some ⟨1920, 1080, "1080p"⟩
  else if key = "1280x720" then some ⟨1280, 720, "720p"⟩
  else if key = "854x480" then some ⟨854, 480, "480p"⟩
  else if key = "640x360" then some ⟨640, 360, "360p"⟩
  else if key = "1080x1920" then some ⟨1080, 1920, "Vertical 1080"⟩
  else if key = "720x1280" then some ⟨720, 1280, "Vertical 720"⟩
  else none

/-- Ambient browser state read by the resolver: the value of the size
selector and the player container client dimensions (zero models the falsy
case of a missing layout box). -/
structure Env where
  sizeSelectValue : String
  containerWidth : Nat
  containerHeight : Nat
deriving Repr, DecidableEq

/-- Current player area dimensions (main.ts getPlayerDimensions): the
selected preset minus the control bar height, else the container client
size with 1280 by 670 as fallback for zero (falsy) dimensions. -/
def getPlayerDimensions (env : Env) : Nat × Nat :=
  match SIZE_PRESETS env.sizeSelectValue with
  | some preset => (preset.width, preset.height - CONTROL_BAR_HEIGHT)
  | none =>
    (if env.containerWidth = 0 then 1280 else env.containerWidth,
     if env.containerHeight = 0 then 670 else env.containerHeight)

/-- Platform detection from a URL (main.ts detectPlatform): parse the URL,
lowercase the hostname, test YouTube substrings then Facebook substrings;
none models both the null return and the caught parse failure. -/
def detectPlatform (url : String) : Option Platform :=
  match parseURL url with
  | none => none
  | some urlObj =>
    let hostname := lowerStr urlObj.host
    if strContains hostname "youtube.com" || strContains hostname "youtu.be" ||
        strContains hostname "youtube-nocookie.com" then
      some Platform.youtube
    else if strContains hostname "facebook.com" || strContains hostname "fb.watch" ||
        strContains hostname "fb.com" then
      some Platform.facebook
    else none

/-- Identifier characters of the video-id capture group [a-zA-Z0-9_-]. -/
def isIdChar (c : Char) : Bool :=
  c.isAlpha || c.isDigit || c = '_' || c = '-'

/-- Match of one keyword alternative at a position: consumes the keyword,
then a slash, then a nonempty maximal run of identifier characters (the
greedy capture group of the path regex). -/
def matchKwIdRun (kw : List Char) (cs : List Char) : Option (List Char) :=
  match kw with
  | [] =>
    match cs with
    | '/' :: rest =>
      let run := rest.takeWhile isIdChar
      if run = [] then none else some run
    | _ => none
  | k :: ks =>
    match cs with
    | c :: rest => if c = k then matchKwIdRun ks rest else none
    | [] => none

/-- Leftmost match of the JavaScript regex /\/(live|embed|shorts|v)\/([a-zA-Z0-9_-]+)/
returning the second capture group: positions are scanned left to right and
at each slash the alternatives are tried in their written order. -/
def pathRegexCapture : List Char → Option (List Char)
  | [] => none
  | c :: cs =>
    if c = '/' then
      match matchKwIdRun "live".data cs <|> matchKwIdRun "embed".data cs <|>
          matchKwIdRun "shorts".data cs <|> matchKwIdRun "v".data cs with
      | some r => some r
      | none => pathRegexCapture cs
    else pathRegexCapture cs

/-- YouTube video-id extraction (main.ts extractYouTubeVideoId): a v query
parameter wins, then for youtu.be hostnames the first nonempty path
segment, then the path regex; none models both null and the caught parse
failure. -/
def extractYouTubeVideoId (url : String) : Option String :=
  match parseURL url with
  | none => none
  | some urlObj =>
    let hostname := lowerStr urlObj.host
    match searchParamsGet urlObj.query "v" with
    | some v => some v
    | none =>
      let fromShortHost :=
        if strContains hostname "youtu.be" then
          match (splitChar '/' urlObj.path.data).filter (fun p => p ≠ []) with
          | p :: _ => some (String.mk p)
          | [] => none
        else none
      match fromShortHost with
      | some v => some v
      | none => (pathRegexCapture urlObj.path.data).map String.mk

/-- YouTube embed URL construction (main.ts buildYouTubeEmbedUrl). -/
def buildYouTubeEmbedUrl (videoId : String) : String :=
  "https://www.youtube-nocookie.com/embed/" ++ videoId ++ "?autoplay=1&rel=0&modestbranding=1"

/-- Facebook embed URL construction (main.ts buildFacebookEmbedUrl): the
original URL percent-encoded as href, then width and height from the
current player dimensions, then the fixed flags. -/
def buildFacebookEmbedUrl (env : Env) (originalUrl : String) : String :=
  "https://www.facebook.com/plugins/video.php?href=" ++ encodeURIComponent originalUrl ++
    "&width=" ++ toString (getPlayerDimensions env).1 ++
    "&height=" ++ toString (getPlayerDimensions env).2 ++
    "&show_text=false&autoplay=true&allowfullscreen=true"

/-- Whitespace characters removed by JavaScript String.prototype.trim:
tab, line feed, vertical tab, form feed, carriage return, space, no-break
space and the byte-order mark (less common Unicode space separators are
omitted from the model). -/
def jsIsTrimChar (c : Char) : Bool :=
  c.toNat = 32 || c.toNat = 9 || c.toNat = 10 || c.toNat = 11 || c.toNat = 12 ||
  c.toNat = 13 || c.toNat = 160 || c.toNat = 65279

/-- Model of JavaScript String.prototype.trim. -/
def jsTrim (s : String) : String :=
  String.mk (((s.data.dropWhile jsIsTrimChar).reverse.dropWhile jsIsTrimChar).reverse)

/-- Top-level resolver (main.ts parseStreamUrl). The JavaScript falsy test
on the extracted video id treats both null and the empty string as
extraction failure, hence the extra empty-string branch; the final
Unsupported-platform return of the source is unreachable because the two
platform cases are exhaustive. -/
def parseStreamUrl (env : Env) (url : String) : ParseResult :=
  let trimmedUrl := jsTrim url
  if trimmedUrl = "" then ⟨none, none, some "Please enter a URL"⟩
  else
    match parseURL trimmedUrl with
    | none => ⟨none, none, some "Invalid URL format"⟩
    | some _ =>
      match detectPlatform trimmedUrl with
      | none => ⟨none, none, some "URL must be from YouTube or Facebook"⟩
      | some Platform.youtube =>
        match extractYouTubeVideoId trimmedUrl with
        | none => ⟨some Platform.youtube, none, some "Could not extract YouTube video ID"⟩
        | some vid =>
          if vid = "" then
            ⟨some Platform.youtube, none, some "Could not extract YouTube video ID"⟩
          else ⟨some Platform.youtube, some (buildYouTubeEmbedUrl vid), none⟩
      | some Platform.facebook =>
        ⟨some Platform.facebook, some (buildFacebookEmbedUrl env trimmedUrl), none⟩

/-- Default environment for concrete test inputs: 720p preset selected. -/
def env720 : Env := ⟨"1280x720", 0, 0⟩

namespace P0

/-- Default Facebook video dimensions of the auto-mode variant
(FACEBOOK_DEFAULT_WIDTH and FACEBOOK_DEFAULT_HEIGHT). -/
def FACEBOOK_DEFAULT_WIDTH : Nat := 1280

/-- Default Facebook video height of the auto-mode variant. -/
def FACEBOOK_DEFAULT_HEIGHT : Nat := 720

/-- Auto-mode test of the auto-mode source variant (checkAutoMode): true
exactly when the size selector holds the value auto. -/
def checkAutoMode (sizeSelectValue : String) : Bool :=
  sizeSelectValue = "auto"

/-- Player dimensions of the auto-mode source variant (getPlayerDimensions):
auto mode uses the Facebook defaults, a preset uses its size minus the
control bar, and anything else falls back to 1280 by 670. -/
def getPlayerDimensions (sizeSelectValue : String) : Nat × Nat :=
  if sizeSelectValue = "auto" then (FACEBOOK_DEFAULT_WIDTH, FACEBOOK_DEFAULT_HEIGHT)
  else
    match SIZE_PRESETS sizeSelectValue with
    | some preset => (preset.width, preset.height - CONTROL_BAR_HEIGHT)
    | none => (1280, 670)

/-- Facebook embed URL construction of the auto-mode source variant
(buildFacebookEmbedUrl with its useAutoMode flag): auto mode omits the
width and height parameters entirely, fixed-size mode inserts them between
href and the fixed flags. -/
def buildFacebookEmbedUrl (sizeSelectValue : String) (originalUrl : String)
    (useAutoMode : Bool) : String :=
  if useAutoMode then
    "https://www.facebook.com/plugins/video.php?href=" ++ encodeURIComponent originalUrl ++
      "&show_text=false&autoplay=true&allowfullscreen=true"
  else
    "https://www.facebook.com/plugins/video.php?href=" ++ encodeURIComponent originalUrl ++
      "&width=" ++ toString (getPlayerDimensions sizeSelectValue).1 ++
      "&height=" ++ toString (getPlayerDimensions sizeSelectValue).2 ++
      "&show_text=false&autoplay=true&allowfullscreen=true"

end P0

/-- JavaScript string as a sequence of UTF-16 code units; this refinement
of the scalar-value model captures unpaired surrogates, which Lean Char
cannot represent. -/
abbrev JSString := List Nat

/-- Trim-set test on a UTF-16 code unit (same set as jsIsTrimChar; all its
members are below the surrogate range, so the code-unit test agrees). -/
def jsIsTrimCU (u : Nat) : Bool :=
  u = 32 || u = 9 || u = 10 || u = 11 || u = 12 || u = 13 || u = 160 || u = 65279

/-- Model of String.prototype.trim on code units. -/
def jsTrimCU (s : JSString) : JSString :=
  ((List.dropWhile jsIsTrimCU s).reverse.dropWhile jsIsTrimCU).reverse

/-- Unpaired-surrogate test on a UTF-16 code-unit sequence: exactly the
inputs on which JavaScript encodeURIComponent throws URIError. -/
def hasLoneSurrogate : JSString → Bool
  | [] => false
  | u :: us =>
    if 55296 ≤ u ∧ u < 56320 then
      match us with
      | v :: vs => if 56320 ≤ v ∧ v < 57344 then hasLoneSurrogate vs else true
      | [] => true
    else if 56320 ≤ u ∧ u < 57344 then true
    else hasLoneSurrogate us

/-- Conversion of UTF-16 code units to scalar values as the WHATWG URL
machinery performs it: surrogate pairs combine and unpaired surrogates
become U+FFFD. -/
def jsToScalars : JSString → List Char
  | [] => []
  | [u] =>
    if 55296 ≤ u ∧ u < 57344 then [Char.ofNat 65533] else [Char.ofNat u]
  | u :: v :: vs =>
    if 55296 ≤ u ∧ u < 56320 then
      if 56320 ≤ v ∧ v < 57344 then
        Char.ofNat (65536 + (u - 55296) * 1024 + (v - 56320)) :: jsToScalars vs
      else Char.ofNat 65533 :: jsToScalars (v :: vs)
    else if 56320 ≤ u ∧ u < 57344 then Char.ofNat 65533 :: jsToScalars (v :: vs)
    else Char.ofNat u :: jsToScalars (v :: vs)

/-- Code units of an ASCII string (for writing concrete JSString inputs). -/
def jsOfString (s : String) : JSString :=
  s.data.map Char.toNat

/-- The resolver over the UTF-16 code-unit model of JavaScript strings;
none models an exception escaping parseStreamUrl. The URL constructor and
the hostname tests act on the scalar conversion of the input (the WHATWG
parser replaces unpaired surrogates); the only primitive in the resolver
that can throw on a reachable input is encodeURIComponent in the Facebook
branch, which raises URIError exactly when the trimmed input still holds an
unpaired surrogate (the YouTube branch only concatenates). -/
def parseStreamUrlJS (env : Env) (url : JSString) : Option ParseResult :=
  let trimmedUrl := jsTrimCU url
  if trimmedUrl.isEmpty then some ⟨none, none, some "Please enter a URL"⟩
  else
    let scalarUrl := String.mk (jsToScalars trimmedUrl)
    match parseURL scalarUrl with
    | none => some ⟨none, none, some "Invalid URL format"⟩
    | some _ =>
      match detectPlatform scalarUrl with
      | none => some ⟨none, none, some "URL must be from YouTube or Facebook"⟩
      | some Platform.youtube =>
        match extractYouTubeVideoId scalarUrl with
        | none => some ⟨some Platform.youtube, none, some "Could not extract YouTube video ID"⟩
        | some vid =>
          if vid = "" then
            some ⟨some Platform.youtube, none, some "Could not extract YouTube video ID"⟩
          else some ⟨some Platform.youtube, some (buildYouTubeEmbedUrl vid), none⟩
      | some Platform.facebook =>
        if hasLoneSurrogate trimmedUrl then none
        else some ⟨some Platform.facebook, some (buildFacebookEmbedUrl env scalarUrl), none⟩

/-- Extraction rule (a) as the specification words it: the value of a v
query parameter of the parsed URL. -/
def ytRuleA (url : String) : Option String :=
  (parseURL url).bind (fun r => searchParamsGet r.query "v")

/-- Extraction rule (b) as the specification words it: for a hostname
containing youtu.be, the first nonempty path segment. -/
def ytRuleB (url : String) : Option String :=
  (parseURL url).bind (fun r =>
    if strContains (lowerStr r.host) "youtu.be" then
      (((splitChar '/' r.path.data).filter (fun p => p ≠ [])).head?).map String.mk
    else none)

/-- Extraction rule (c) as the specification words it: the id captured by
the path pattern /(live|embed|shorts|v)/id. -/
def ytRuleC (url : String) : Option String :=
  (parseURL url).bind (fun r => (pathRegexCapture r.path.data).map String.mk)

/-- Modelled from the spec: the priority extraction the specification
describes, rules (a), (b), (c) tried in order with the first match
winning. Used to compare the specified extraction against the code. -/
def specYtExtract (url : String) : Option String :=
  ytRuleA url <|> (ytRuleB url <|> ytRuleC url)

/-- Raw (undecoded) value of the first query parameter with a given name in
a URL string: the query is the part after the first question mark up to any
number sign; pieces split on ampersands, a piece names the parameter when
the part before its first equals sign is the name. -/
def rawParamValue (s name : String) : Option String :=
  match ((splitChar '&'
      (((s.data.dropWhile (fun c => c ≠ '?')).drop 1).takeWhile (fun c => c ≠ '#'))).filter
        (fun p => p ≠ [])).find? (fun p => p.takeWhile (fun c => c ≠ '=') == name.data) with
  | some p => some (String.mk ((p.dropWhile (fun c => c ≠ '=')).drop 1))
  | none => none

/-- Hostname test for the YouTube substrings of detectPlatform. -/
def isYouTubeHost (hostname : String) : Bool :=
  strContains hostname "youtube.com" || strContains hostname "youtu.be" ||
  strContains hostname "youtube-nocookie.com"

/-- Hostname test for the Facebook substrings of detectPlatform. -/
def isFacebookHost (hostname : String) : Bool :=
  strContains hostname "facebook.com" || strContains hostname "fb.watch" ||
  strContains hostname "fb.com"

-- Helper lemmas for the percent-encoding round trip.

theorem hexVal_hexDigitChar (n : Nat) (h : n < 16) : hexVal (hexDigitChar n) = some n := by
  interval_cases n <;> decide

theorem pctByteAt_enc (b : Nat) (h : b < 256) (rest : List Char) :
    pctByteAt ('%' :: hexDigitChar (b / 16) :: hexDigitChar (b % 16) :: rest) =
      some (b, rest) := by
  simp only [pctByteAt]
  rw [hexVal_hexDigitChar (b / 16) (by omega), hexVal_hexDigitChar (b % 16) (by omega)]
  show some (16 * (b / 16) + b % 16, rest) = some (b, rest)
  rw [Nat.div_add_mod]

theorem char_valid_nat (c : Char) :
    c.toNat < 55296 ∨ (57343 < c.toNat ∧ c.toNat < 1114112) := by
  have h := c.valid
  unfold UInt32.isValidChar Nat.isValidChar at h
  exact h

theorem decodeOne_pct (cs : List Char) : decodeOne ('%' :: cs) =
    match pctByteAt ('%' :: cs) with
    | none => none
    | some (b1, r1) =>
      if b1 < 128 then some (Char.ofNat b1, r1)
      else if b1 < 192 then none
      else if b1 < 224 then
        match pctByteAt r1 with
        | some (b2, r2) =>
          let n := (b1 - 192) * 64 + (b2 - 128)
          if 128 ≤ b2 ∧ b2 < 192 ∧ 128 ≤ n then some (Char.ofNat n, r2)
          else none
        | none => none
      else if b1 < 240 then
        match pctByteAt r1 with
        | some (b2, r2) =>
          match pctByteAt r2 with
          | some (b3, r3) =>
            let n := (b1 - 224) * 4096 + (b2 - 128) * 64 + (b3 - 128)
            if 128 ≤ b2 ∧ b2 < 192 ∧ 128 ≤ b3 ∧ b3 < 192 ∧ 2048 ≤ n ∧
                (n < 55296 ∨ 57343 < n) then
              some (Char.ofNat n, r3)
            else none
          | none => none
        | none => none
      else if b1 < 248 then
        match pctByteAt r1 with
        | some (b2, r2) =>
          match pctByteAt r2 with
          | some (b3, r3) =>
            match pctByteAt r3 with
            | some (b4, r4) =>
              let n := (b1 - 240) * 262144 + (b2 - 128) * 4096 + (b3 - 128) * 64 +
                (b4 - 128)
              if 128 ≤ b2 ∧ b2 < 192 ∧ 128 ≤ b3 ∧ b3 < 192 ∧ 128 ≤ b4 ∧ b4 < 192 ∧
                  65536 ≤ n ∧ n < 1114112 then
                some (Char.ofNat n, r4)
              else none
            | none => none
          | none => none
        | none => none
      else none := rfl

theorem decodeOne_other (c : Char) (cs : List Char) (hc : ¬(c = '%')) :
    decodeOne (c :: cs) = some (c, cs) := by
  simp only [decodeOne]
  rw [if_neg hc]

theorem decodeOne_encChar (c : Char) (rest : List Char) :
    decodeOne ((if isUnreservedChar c then [c] else pctBytes (utf8Bytes c.toNat)) ++ rest) =
      some (c, rest) := by
  by_cases hu : isUnreservedChar c
  · rw [if_pos hu]
    have hc : ¬(c = '%') := by
      intro h
      subst h
      simp [isUnreservedChar] at hu
    rw [List.cons_append, List.nil_append, decodeOne_other c rest hc]
  · rw [if_neg hu]
    have hv := char_valid_nat c
    by_cases h1 : c.toNat < 128
    · have hb : utf8Bytes c.toNat = [c.toNat] := by unfold utf8Bytes; rw [if_pos h1]
      rw [hb]
      simp only [pctBytes, pctEncodeByte, List.cons_append, List.nil_append, List.append_nil]
      rw [decodeOne_pct, pctByteAt_enc c.toNat (by omega)]
      simp only []
      rw [if_pos h1, Char.ofNat_toNat]
    · by_cases h2 : c.toNat < 2048
      · have hb : utf8Bytes c.toNat = [192 + c.toNat / 64, 128 + c.toNat % 64] := by
          unfold utf8Bytes
          rw [if_neg h1, if_pos h2]
        rw [hb]
        simp only [pctBytes, pctEncodeByte, List.cons_append, List.nil_append, List.append_nil]
        rw [decodeOne_pct, pctByteAt_enc (192 + c.toNat / 64) (by omega)]
        simp only []
        rw [if_neg (by omega), if_neg (by omega), if_pos (show 192 + c.toNat / 64 < 224 by omega)]
        rw [pctByteAt_enc (128 + c.toNat % 64) (by omega)]
        simp only []
        rw [if_pos (by refine ⟨by omega, by omega, by omega⟩)]
        have hn : (192 + c.toNat / 64 - 192) * 64 + (128 + c.toNat % 64 - 128) = c.toNat := by
          omega
        rw [hn, Char.ofNat_toNat]
      · by_cases h3 : c.toNat < 65536
        · have hb : utf8Bytes c.toNat =
              [224 + c.toNat / 4096, 128 + (c.toNat / 64) % 64, 128 + c.toNat % 64] := by
            unfold utf8Bytes
            rw [if_neg h1, if_neg h2, if_pos h3]
          rw [hb]
          simp only [pctBytes, pctEncodeByte, List.cons_append, List.nil_append, List.append_nil]
          rw [decodeOne_pct, pctByteAt_enc (224 + c.toNat / 4096) (by omega)]
          simp only []
          rw [if_neg (by omega), if_neg (by omega), if_neg (by omega),
            if_pos (show 224 + c.toNat / 4096 < 240 by omega)]
          rw [pctByteAt_enc (128 + (c.toNat / 64) % 64) (by omega)]
          simp only []
          rw [pctByteAt_enc (128 + c.toNat % 64) (by omega)]
          simp only []
          rw [if_pos (by
            refine ⟨by omega, by omega, by omega, by omega, by omega, by omega⟩)]
          have hn : (224 + c.toNat / 4096 - 224) * 4096 + (128 + (c.toNat / 64) % 64 - 128) * 64 +
              (128 + c.toNat % 64 - 128) = c.toNat := by
            omega
          rw [hn, Char.ofNat_toNat]
        · have hb : utf8Bytes c.toNat =
              [240 + c.toNat / 262144, 128 + (c.toNat / 4096) % 64, 128 + (c.toNat / 64) % 64,
                128 + c.toNat % 64] := by
            unfold utf8Bytes
            rw [if_neg h1, if_neg h2, if_neg h3]
          rw [hb]
          simp only [pctBytes, pctEncodeByte, List.cons_append, List.nil_append, List.append_nil]
          rw [decodeOne_pct, pctByteAt_enc (240 + c.toNat / 262144) (by omega)]
          simp only []
          rw [if_neg (by omega), if_neg (by omega), if_neg (by omega), if_neg (by omega),
            if_pos (show 240 + c.toNat / 262144 < 248 by omega)]
          rw [pctByteAt_enc (128 + (c.toNat / 4096) % 64) (by omega)]
          simp only []
          rw [pctByteAt_enc (128 + (c.toNat / 64) % 64) (by omega)]
          simp only []
          rw [pctByteAt_enc (128 + c.toNat % 64) (by omega)]
          simp only []
          rw [if_pos (by
            refine ⟨by omega, by omega, by omega, by omega, by omega, by omega, by omega, by omega⟩)]
          have hn : (240 + c.toNat / 262144 - 240) * 262144 +
              (128 + (c.toNat / 4096) % 64 - 128) * 4096 +
              (128 + (c.toNat / 64) % 64 - 128) * 64 + (128 + c.toNat % 64 - 128) = c.toNat := by
            omega
          rw [hn, Char.ofNat_toNat]

theorem pctByteAt_length (cs : List Char) (b : Nat) (r : List Char)
    (h : pctByteAt cs = some (b, r)) : r.length + 3 = cs.length := by
  match cs with
  | '%' :: h1 :: h2 :: cs1 =>
    simp only [pctByteAt] at h
    cases hx : hexVal h1 with
    | none => rw [hx] at h; simp at h
    | some x =>
      cases hy : hexVal h2 with
      | none => rw [hx, hy] at h; simp at h
      | some y =>
        rw [hx, hy] at h
        simp only [Option.some.injEq, Prod.mk.injEq] at h
        obtain ⟨-, h2'⟩ := h
        subst h2'
        simp [List.length]
  | [] => simp [pctByteAt] at h
  | [c] =>
    simp only [pctByteAt] at h
    exact absurd h (by simp)
  | [c, d] =>
    simp only [pctByteAt] at h
    exact absurd h (by simp)
  | c :: d :: e :: cs1 =>
    by_cases hc : c = '%'
    · subst hc
      simp only [pctByteAt] at h
      cases hx : hexVal d with
      | none => rw [hx] at h; simp at h
      | some x =>
        cases hy : hexVal e with
        | none => rw [hx, hy] at h; simp at h
        | some y =>
          rw [hx, hy] at h
          simp only [Option.some.injEq, Prod.mk.injEq] at h
          obtain ⟨-, h2'⟩ := h
          subst h2'
          simp [List.length]
    · simp only [pctByteAt] at h
      split at h
      · simp_all
      · simp at h

theorem decodeOne_some_length (cs : List Char) (ch : Char) (rest : List Char)
    (h : decodeOne cs = some (ch, rest)) : rest.length < cs.length := by
  match cs with
  | [] => simp [decodeOne] at h
  | c :: cs0 =>
    by_cases hc : c = '%'
    · subst hc
      rw [decodeOne_pct] at h
      cases hp1 : pctByteAt ('%' :: cs0) with
      | none => rw [hp1] at h; exact absurd h (by simp)
      | some br1 =>
        obtain ⟨b1, r1⟩ := br1
        rw [hp1] at h
        have hl1 := pctByteAt_length _ _ _ hp1
        simp only [] at h
        by_cases q1 : b1 < 128
        · rw [if_pos q1] at h
          simp only [Option.some.injEq, Prod.mk.injEq] at h
          obtain ⟨-, h2'⟩ := h
          subst h2'
          omega
        · rw [if_neg q1] at h
          by_cases q2 : b1 < 192
          · rw [if_pos q2] at h; exact absurd h (by simp)
          · rw [if_neg q2] at h
            by_cases q3 : b1 < 224
            · rw [if_pos q3] at h
              cases hp2 : pctByteAt r1 with
              | none => rw [hp2] at h; exact absurd h (by simp)
              | some br2 =>
                obtain ⟨b2, r2⟩ := br2
                rw [hp2] at h
                have hl2 := pctByteAt_length _ _ _ hp2
                simp only [] at h
                split at h
                · simp only [Option.some.injEq, Prod.mk.injEq] at h
                  obtain ⟨-, h2'⟩ := h
                  subst h2'
                  omega
                · exact absurd h (by simp)
            · rw [if_neg q3] at h
              by_cases q4 : b1 < 240
              · rw [if_pos q4] at h
                cases hp2 : pctByteAt r1 with
                | none => rw [hp2] at h; exact absurd h (by simp)
                | some br2 =>
                  obtain ⟨b2, r2⟩ := br2
                  rw [hp2] at h
                  have hl2 := pctByteAt_length _ _ _ hp2
                  simp only [] at h
                  cases hp3 : pctByteAt r2 with
                  | none => rw [hp3] at h; exact absurd h (by simp)
                  | some br3 =>
                    obtain ⟨b3, r3⟩ := br3
                    rw [hp3] at h
                    have hl3 := pctByteAt_length _ _ _ hp3
                    simp only [] at h
                    split at h
                    · simp only [Option.some.injEq, Prod.mk.injEq] at h
                      obtain ⟨-, h2'⟩ := h
                      subst h2'
                      omega
                    · exact absurd h (by simp)
              · rw [if_neg q4] at h
                by_cases q5 : b1 < 248
                · rw [if_pos q5] at h
                  cases hp2 : pctByteAt r1 with
                  | none => rw [hp2] at h; exact absurd h (by simp)
                  | some br2 =>
                    obtain ⟨b2, r2⟩ := br2
                    rw [hp2] at h
                    have hl2 := pctByteAt_length _ _ _ hp2
                    simp only [] at h
                    cases hp3 : pctByteAt r2 with
                    | none => rw [hp3] at h; exact absurd h (by simp)
                    | some br3 =>
                      obtain ⟨b3, r3⟩ := br3
                      rw [hp3] at h
                      have hl3 := pctByteAt_length _ _ _ hp3
                      simp only [] at h
                      cases hp4 : pctByteAt r3 with
                      | none => rw [hp4] at h; exact absurd h (by simp)
                      | some br4 =>
                        obtain ⟨b4, r4⟩ := br4
                        rw [hp4] at h
                        have hl4 := pctByteAt_length _ _ _ hp4
                        simp only [] at h
                        split at h
                        · simp only [Option.some.injEq, Prod.mk.injEq] at h
                          obtain ⟨-, h2'⟩ := h
                          subst h2'
                          omega
                        · exact absurd h (by simp)
                · rw [if_neg q5] at h
                  exact absurd h (by simp)
    · rw [decodeOne_other c cs0 hc] at h
      simp only [Option.some.injEq, Prod.mk.injEq] at h
      obtain ⟨-, h2'⟩ := h
      subst h2'
      simp

theorem decodeCharsAux_nil (f : Nat) : decodeCharsAux f [] = some [] := by
  cases f <;> rfl

theorem decodeCharsAux_succ (f : Nat) (c : Char) (cs : List Char) :
    decodeCharsAux (f + 1) (c :: cs) =
      match decodeOne (c :: cs) with
      | some (ch, rest) => (decodeCharsAux f rest).map (fun t => ch :: t)
      | none => none := rfl

theorem decodeCharsAux_mono (k : Nat) : ∀ (cs : List Char), cs.length ≤ k →
    ∀ (f1 f2 : Nat), cs.length ≤ f1 → cs.length ≤ f2 →
    decodeCharsAux f1 cs = decodeCharsAux f2 cs := by
  induction k with
  | zero =>
    intro cs hk f1 f2 h1 h2
    have : cs = [] := List.length_eq_zero.mp (Nat.le_zero.mp hk)
    subst this
    rw [decodeCharsAux_nil, decodeCharsAux_nil]
  | succ k ih =>
    intro cs hk f1 f2 h1 h2
    match cs with
    | [] => rw [decodeCharsAux_nil, decodeCharsAux_nil]
    | c :: cs0 =>
      match f1, f2 with
      | g1 + 1, g2 + 1 =>
        rw [decodeCharsAux_succ, decodeCharsAux_succ]
        cases hd : decodeOne (c :: cs0) with
        | none => rfl
        | some p =>
          obtain ⟨ch, rest⟩ := p
          have hlen := decodeOne_some_length _ _ _ hd
          simp only []
          rw [ih rest (by simp at hk hlen ⊢; omega) g1 g2 (by simp at hlen h1 ⊢; omega)
            (by simp at hlen h2 ⊢; omega)]

theorem decodeChars_step (x : List Char) (ch : Char) (rest : List Char)
    (h : decodeOne x = some (ch, rest)) :
    decodeChars x = (decodeChars rest).map (fun t => ch :: t) := by
  match x with
  | [] => simp [decodeOne] at h
  | c :: cs0 =>
    have hlen := decodeOne_some_length _ _ _ h
    show decodeCharsAux (c :: cs0).length (c :: cs0) = _
    have : (c :: cs0).length = cs0.length + 1 := rfl
    rw [this, decodeCharsAux_succ, h]
    simp only []
    rw [decodeCharsAux_mono rest.length rest (Nat.le_refl _) cs0.length rest.length
      (by simp at hlen ⊢; omega) (Nat.le_refl _)]
    rfl

theorem decodeChars_encodeChars (cs : List Char) : ∀ (tail : List Char),
    decodeChars (encodeChars cs ++ tail) = (decodeChars tail).map (fun t => cs ++ t) := by
  induction cs with
  | nil =>
    intro tail
    simp only [encodeChars, List.nil_append, List.nil_append]
    cases decodeChars tail <;> rfl
  | cons c cs' ih =>
    intro tail
    have hsplit : encodeChars (c :: cs') ++ tail =
        (if isUnreservedChar c then [c] else pctBytes (utf8Bytes c.toNat)) ++
          (encodeChars cs' ++ tail) := by
      simp only [encodeChars, List.append_assoc]
    rw [hsplit, decodeChars_step _ c _ (decodeOne_encChar c _), ih tail]
    cases decodeChars tail <;> rfl

theorem decode_encode_uri (s : String) :
    decodeURIComponent (encodeURIComponent s) = some s := by
  unfold decodeURIComponent encodeURIComponent
  show (decodeChars (encodeChars s.data)).map String.mk = some s
  have : encodeChars s.data = encodeChars s.data ++ [] := by simp
  rw [this, decodeChars_encodeChars s.data []]
  show (((decodeCharsAux 0 []).map (fun t => s.data ++ t)).map String.mk) = some s
  rw [decodeCharsAux_nil]
  show some (String.mk (s.data ++ [])) = some s
  rw [List.append_nil]

-- Helper lemmas about takeWhile, dropWhile and splitChar on appends.

theorem twAppendAll (p : Char → Bool) (a b : List Char) (h : ∀ c ∈ a, p c = true) :
    (a ++ b).takeWhile p = a ++ b.takeWhile p := by
  induction a with
  | nil => simp
  | cons x xs ih =>
    rw [List.cons_append, List.takeWhile_cons, if_pos (h x (by simp)), List.cons_append,
      ih (fun c hc => h c (by simp [hc]))]

theorem dwAppendAll (p : Char → Bool) (a b : List Char) (h : ∀ c ∈ a, p c = true) :
    (a ++ b).dropWhile p = b.dropWhile p := by
  induction a with
  | nil => simp
  | cons x xs ih =>
    rw [List.cons_append, List.dropWhile_cons, if_pos (h x (by simp)),
      ih (fun c hc => h c (by simp [hc]))]

theorem splitCharFirst (sep : Char) (a z : List Char) (h : ∀ c ∈ a, ¬(c = sep)) :
    splitChar sep (a ++ sep :: z) = a :: splitChar sep z := by
  induction a with
  | nil =>
    simp [splitChar]
  | cons x xs ih =>
    rw [List.cons_append]
    simp only [splitChar]
    rw [if_neg (h x (by simp)), ih (fun c hc => h c (by simp [hc]))]

-- Character classes of encodeURIComponent output.

theorem utf8Bytes_below (n : Nat) (h : n < 1114112) : ∀ b ∈ utf8Bytes n, b < 256 := by
  intro b hb
  unfold utf8Bytes at hb
  by_cases h1 : n < 128
  · rw [if_pos h1] at hb
    simp at hb
    omega
  · rw [if_neg h1] at hb
    by_cases h2 : n < 2048
    · rw [if_pos h2] at hb
      simp at hb
      rcases hb with hb | hb <;> omega
    · rw [if_neg h2] at hb
      by_cases h3 : n < 65536
      · rw [if_pos h3] at hb
        simp at hb
        rcases hb with hb | hb | hb <;> omega
      · rw [if_neg h3] at hb
        simp at hb
        rcases hb with hb | hb | hb | hb <;> omega

theorem hexDigitChar_range (n : Nat) (h : n < 16) :
    (48 ≤ (hexDigitChar n).toNat ∧ (hexDigitChar n).toNat ≤ 57) ∨
    (65 ≤ (hexDigitChar n).toNat ∧ (hexDigitChar n).toNat ≤ 70) := by
  interval_cases n <;> simp [hexDigitChar]

theorem pctBytes_mem (bs : List Nat) (hb : ∀ b ∈ bs, b < 256) :
    ∀ c ∈ pctBytes bs, c = '%' ∨
      (48 ≤ c.toNat ∧ c.toNat ≤ 57) ∨ (65 ≤ c.toNat ∧ c.toNat ≤ 70) := by
  induction bs with
  | nil => simp [pctBytes]
  | cons b bs' ih =>
    intro c hc
    rw [pctBytes] at hc
    rcases List.mem_append.mp hc with hc | hc
    · simp only [pctEncodeByte, List.mem_cons, List.mem_singleton] at hc
      rcases hc with hc | hc | hc
      · exact Or.inl hc
      · subst hc
        exact Or.inr (hexDigitChar_range _ (by have := hb b (by simp); omega))
      · simp at hc
        subst hc
        exact Or.inr (hexDigitChar_range _ (by have := hb b (by simp); omega))
    · exact ih (fun x hx => hb x (by simp [hx])) c hc

theorem encodeChars_classes (cs : List Char) :
    ∀ c ∈ encodeChars cs, isUnreservedChar c = true ∨ c = '%' ∨
      (48 ≤ c.toNat ∧ c.toNat ≤ 57) ∨ (65 ≤ c.toNat ∧ c.toNat ≤ 70) := by
  induction cs with
  | nil => simp [encodeChars]
  | cons x xs ih =>
    intro c hc
    rw [encodeChars] at hc
    rcases List.mem_append.mp hc with hc | hc
    · by_cases hu : isUnreservedChar x
      · rw [if_pos hu] at hc
        simp at hc
        subst hc
        exact Or.inl hu
      · rw [if_neg hu] at hc
        have hv := char_valid_nat x
        exact Or.inr (pctBytes_mem _ (utf8Bytes_below x.toNat (by omega)) c hc)
    · exact ih c hc

theorem encodeChars_no_specials (cs : List Char) :
    ∀ c ∈ encodeChars cs, ¬(c = '&') ∧ ¬(c = '#') ∧ ¬(c = '=') := by
  intro c hc
  rcases encodeChars_classes cs c hc with h | h | h | h
  · refine ⟨?_, ?_, ?_⟩ <;> intro he <;> subst he <;> simp [isUnreservedChar] at h
  · subst h
    refine ⟨by decide, by decide, by decide⟩
  · refine ⟨?_, ?_, ?_⟩ <;> intro he <;> subst he <;> simp at h
  · refine ⟨?_, ?_, ?_⟩ <;> intro he <;> subst he <;> simp at h

theorem mkData (cs : List Char) : (String.mk cs).data = cs := rfl

theorem buildFB_data (env : Env) (u : String) :
    (buildFacebookEmbedUrl env u).data =
      "https://www.facebook.com/plugins/video.php".data ++ '?' ::
        ("href=".data ++ (encodeChars u.data ++ ('&' ::
          ("width=".data ++ ((toString (getPlayerDimensions env).1).data ++
            ("&height=".data ++ ((toString (getPlayerDimensions env).2).data ++
              "&show_text=false&autoplay=true&allowfullscreen=true".data))))))) := by
  have e1 : "https://www.facebook.com/plugins/video.php?href=".data =
      "https://www.facebook.com/plugins/video.php".data ++ '?' :: "href=".data := by decide
  have e2 : "&width=".data = '&' :: "width=".data := by decide
  simp only [buildFacebookEmbedUrl, encodeURIComponent, String.data_append, mkData,
    List.append_assoc, e1, e2, List.cons_append, List.nil_append, List.append_nil]

theorem hrefE_no_amp (u : String) :
    ∀ c ∈ "href=".data ++ encodeChars u.data, ¬(c = '&') := by
  intro c hc
  rcases List.mem_append.mp hc with hc | hc
  · intro he
    subst he
    simp at hc
  · exact (encodeChars_no_specials u.data c hc).1

theorem rawHref_buildFB (env : Env) (u : String) :
    rawParamValue (buildFacebookEmbedUrl env u) "href" = some (encodeURIComponent u) := by
  have hdata := buildFB_data env u
  have hhref : "href=".data = 'h' :: 'r' :: 'e' :: 'f' :: '=' :: [] := by decide
  -- step 1: the query of the embed URL
  have h1 : ((buildFacebookEmbedUrl env u).data.dropWhile (fun c => c ≠ '?')).drop 1 =
      "href=".data ++ (encodeChars u.data ++ ('&' ::
        ("width=".data ++ ((toString (getPlayerDimensions env).1).data ++
          ("&height=".data ++ ((toString (getPlayerDimensions env).2).data ++
            "&show_text=false&autoplay=true&allowfullscreen=true".data)))))) := by
    rw [hdata, dwAppendAll _ _ _ (by decide), List.dropWhile_cons]
    simp
  have h2 : (((buildFacebookEmbedUrl env u).data.dropWhile (fun c => c ≠ '?')).drop 1).takeWhile
      (fun c => c ≠ '#') =
      ("href=".data ++ encodeChars u.data) ++ '&' ::
        (("width=".data ++ ((toString (getPlayerDimensions env).1).data ++
          ("&height=".data ++ ((toString (getPlayerDimensions env).2).data ++
            "&show_text=false&autoplay=true&allowfullscreen=true".data)))).takeWhile
              (fun c => c ≠ '#')) := by
    rw [h1, ← List.append_assoc, twAppendAll _ _ _ ?side]
    case side =>
      intro c hc
      rcases List.mem_append.mp hc with hc | hc
      · have hlit : ∀ x ∈ "href=".data, decide (x ≠ '#') = true := by decide
        exact hlit c hc
      · rcases encodeChars_no_specials u.data c hc with ⟨-, hc2, -⟩
        simp [hc2]
    rw [List.takeWhile_cons]
    simp
  unfold rawParamValue
  rw [h2, splitCharFirst _ _ _ (hrefE_no_amp u)]
  have hname : "href".data = ['h', 'r', 'e', 'f'] := by decide
  simp [hhref, hname, List.filter_cons, List.find?_cons, List.takeWhile_cons,
    List.dropWhile_cons, encodeURIComponent]

theorem strAppend_ne_empty (a b : String) (h : ¬(a = "")) : ¬(a ++ b = "") := by
  intro he
  apply h
  have hd := congrArg String.data he
  rw [String.data_append] at hd
  have hnil : a.data = [] := (List.append_eq_nil.mp hd).1
  cases a with
  | mk d =>
    rw [mkData] at hnil
    rw [hnil]

theorem ytEmbed_ne_empty (vid : String) : ¬(buildYouTubeEmbedUrl vid = "") := by
  unfold buildYouTubeEmbedUrl
  exact strAppend_ne_empty _ _ (strAppend_ne_empty _ _ (by decide))

theorem fbEmbed_ne_empty (env : Env) (u : String) : ¬(buildFacebookEmbedUrl env u = "") := by
  unfold buildFacebookEmbedUrl
  exact strAppend_ne_empty _ _ (strAppend_ne_empty _ _ (strAppend_ne_empty _ _
    (strAppend_ne_empty _ _ (strAppend_ne_empty _ _ (strAppend_ne_empty _ _ (by decide))))))

theorem parseStreamUrl_cases (env : Env) (url : String) :
    (jsTrim url = "" ∧ parseStreamUrl env url = ⟨none, none, some "Please enter a URL"⟩) ∨
    (¬(jsTrim url = "") ∧ parseURL (jsTrim url) = none ∧
      parseStreamUrl env url = ⟨none, none, some "Invalid URL format"⟩) ∨
    (¬(jsTrim url = "") ∧ (∃ r, parseURL (jsTrim url) = some r) ∧
      detectPlatform (jsTrim url) = none ∧
      parseStreamUrl env url = ⟨none, none, some "URL must be from YouTube or Facebook"⟩) ∨
    (¬(jsTrim url = "") ∧ (∃ r, parseURL (jsTrim url) = some r) ∧
      detectPlatform (jsTrim url) = some Platform.youtube ∧
      (extractYouTubeVideoId (jsTrim url) = none ∨ extractYouTubeVideoId (jsTrim url) = some "") ∧
      parseStreamUrl env url =
        ⟨some Platform.youtube, none, some "Could not extract YouTube video ID"⟩) ∨
    (¬(jsTrim url = "") ∧ (∃ r, parseURL (jsTrim url) = some r) ∧
      detectPlatform (jsTrim url) = some Platform.youtube ∧
      (∃ vid, ¬(vid = "") ∧ extractYouTubeVideoId (jsTrim url) = some vid ∧
        parseStreamUrl env url =
          ⟨some Platform.youtube, some (buildYouTubeEmbedUrl vid), none⟩)) ∨
    (¬(jsTrim url = "") ∧ (∃ r, parseURL (jsTrim url) = some r) ∧
      detectPlatform (jsTrim url) = some Platform.facebook ∧
      parseStreamUrl env url =
        ⟨some Platform.facebook, some (buildFacebookEmbedUrl env (jsTrim url)), none⟩) := by
  by_cases h0 : jsTrim url = ""
  · exact Or.inl ⟨h0, by simp only [parseStreamUrl]; rw [if_pos h0]⟩
  · cases hP : parseURL (jsTrim url) with
    | none =>
      refine Or.inr (Or.inl ⟨h0, rfl, ?_⟩)
      simp only [parseStreamUrl]
      rw [if_neg h0, hP]
    | some r =>
      cases hD : detectPlatform (jsTrim url) with
      | none =>
        refine Or.inr (Or.inr (Or.inl ⟨h0, ⟨r, rfl⟩, rfl, ?_⟩))
        simp only [parseStreamUrl]
        rw [if_neg h0, hP, hD]
      | some pf =>
        cases pf with
        | youtube =>
          cases hX : extractYouTubeVideoId (jsTrim url) with
          | none =>
            refine Or.inr (Or.inr (Or.inr (Or.inl ⟨h0, ⟨r, rfl⟩, rfl, Or.inl rfl, ?_⟩)))
            simp only [parseStreamUrl]
            rw [if_neg h0, hP, hD, hX]
          | some vid =>
            by_cases hv : vid = ""
            · refine Or.inr (Or.inr (Or.inr (Or.inl ⟨h0, ⟨r, rfl⟩, rfl, Or.inr ?_, ?_⟩)))
              · rw [hv]
              · simp only [parseStreamUrl]
                rw [if_neg h0, hP, hD, hX]
                simp only [if_pos hv]
            · refine Or.inr (Or.inr (Or.inr (Or.inr (Or.inl
                ⟨h0, ⟨r, rfl⟩, rfl, vid, hv, rfl, ?_⟩))))
              simp only [parseStreamUrl]
              rw [if_neg h0, hP, hD, hX]
              simp only [if_neg hv]
        | facebook =>
          refine Or.inr (Or.inr (Or.inr (Or.inr (Or.inr ⟨h0, ⟨r, rfl⟩, rfl, ?_⟩))))
          simp only [parseStreamUrl]
          rw [if_neg h0, hP, hD]

theorem detectPlatform_of_parse (u : String) (r : URLRecord) (h : parseURL u = some r) :
    detectPlatform u =
      (if isYouTubeHost (lowerStr r.host) then some Platform.youtube
       else if isFacebookHost (lowerStr r.host) then some Platform.facebook
       else none) := by
  unfold detectPlatform isYouTubeHost isFacebookHost
  rw [h]

theorem extract_eq_specYt (u : String) : extractYouTubeVideoId u = specYtExtract u := by
  unfold extractYouTubeVideoId specYtExtract ytRuleA ytRuleB ytRuleC
  cases hP : parseURL u with
  | none => rfl
  | some r =>
    simp only [Option.some_bind]
    cases hv : searchParamsGet r.query "v" with
    | some v => rfl
    | none =>
      simp only []
      by_cases hyt : strContains (lowerStr r.host) "youtu.be"
      · cases hseg : ((splitChar '/' r.path.data).filter (fun p => p ≠ [])) with
        | nil => simp [hyt]
        | cons p ps => simp [hyt]
      · simp [hyt]

theorem matchKwIdRun_chars (kw : List Char) : ∀ (cs run : List Char),
    matchKwIdRun kw cs = some run → ∀ c ∈ run, isIdChar c = true := by
  induction kw with
  | nil =>
    intro cs run h c hc
    match cs with
    | [] => simp [matchKwIdRun] at h
    | a :: rest =>
      simp only [matchKwIdRun] at h
      split at h
      · split at h
        · exact absurd h (by simp)
        · simp only [Option.some.injEq] at h
          subst h
          exact List.mem_takeWhile_imp hc
      · exact absurd h (by simp)
  | cons k ks ih =>
    intro cs run h c hc
    match cs with
    | [] => simp [matchKwIdRun] at h
    | a :: rest =>
      simp only [matchKwIdRun] at h
      split at h
      · exact ih rest run h c hc
      · exact absurd h (by simp)

theorem pathRegexCapture_chars : ∀ (cs run : List Char),
    pathRegexCapture cs = some run → ∀ c ∈ run, isIdChar c = true := by
  intro cs
  induction cs with
  | nil => intro run h; simp [pathRegexCapture] at h
  | cons a rest ih =>
    intro run h c hc
    simp only [pathRegexCapture] at h
    by_cases ha : a = '/'
    · rw [if_pos ha] at h
      cases ho : (matchKwIdRun "live".data rest <|> matchKwIdRun "embed".data rest <|>
          matchKwIdRun "shorts".data rest <|> matchKwIdRun "v".data rest) with
      | none => rw [ho] at h; exact ih run h c hc
      | some r =>
        rw [ho] at h
        simp only [Option.some.injEq] at h
        subst h
        rcases (Option.orElse_eq_some _ _ _).mp ho with h1 | ⟨-, h1⟩
        · exact matchKwIdRun_chars _ _ _ h1 c hc
        · rcases (Option.orElse_eq_some _ _ _).mp h1 with h2 | ⟨-, h2⟩
          · exact matchKwIdRun_chars _ _ _ h2 c hc
          · rcases (Option.orElse_eq_some _ _ _).mp h2 with h3 | ⟨-, h3⟩
            · exact matchKwIdRun_chars _ _ _ h3 c hc
            · exact matchKwIdRun_chars _ _ _ h3 c hc
    · rw [if_neg ha] at h
      exact ih run h c hc

/-- C1: for every environment and input string, parseStreamUrl returns a
result in which exactly one of embedUrl and error is populated: every
failure has error set and embedUrl null, every success has a non-empty
embedUrl and error null. -/
theorem claim_C1 (env : Env) (url : String) :
    (∃ m, (parseStreamUrl env url).error = some m ∧ (parseStreamUrl env url).embedUrl = none) ∨
    (∃ s, (parseStreamUrl env url).embedUrl = some s ∧ ¬(s = "") ∧
      (parseStreamUrl env url).error = none) := by
  rcases parseStreamUrl_cases env url with ⟨-, h⟩ | ⟨-, -, h⟩ | ⟨-, -, -, h⟩ | ⟨-, -, -, -, h⟩ |
    ⟨-, -, -, vid, hv, -, h⟩ | ⟨-, -, -, h⟩
  · exact Or.inl ⟨_, by rw [h], by rw [h]⟩
  · exact Or.inl ⟨_, by rw [h], by rw [h]⟩
  · exact Or.inl ⟨_, by rw [h], by rw [h]⟩
  · exact Or.inl ⟨_, by rw [h], by rw [h]⟩
  · exact Or.inr ⟨_, by rw [h], ytEmbed_ne_empty vid, by rw [h]⟩
  · exact Or.inr ⟨_, by rw [h], fbEmbed_ne_empty env (jsTrim url), by rw [h]⟩

/-- C3: the resolver is a pure function of the raw URL and the player
dimensions it is given: two environments that agree on the player
dimensions produce identical results on every input, so the output depends
on no other ambient state. -/
theorem claim_C3 (env1 env2 : Env) (url : String)
    (h : getPlayerDimensions env1 = getPlayerDimensions env2) :
    parseStreamUrl env1 url = parseStreamUrl env2 url := by
  have hb : buildFacebookEmbedUrl env1 (jsTrim url) = buildFacebookEmbedUrl env2 (jsTrim url) := by
    unfold buildFacebookEmbedUrl
    rw [h]
  simp only [parseStreamUrl, hb]

/-- C3 witness: two different environments with equal player dimensions
(the 720p preset minus the control bar versus a container of that size)
resolve the same Facebook URL to byte-identical results. -/
theorem claim_C3_witness :
    getPlayerDimensions ⟨"1280x720", 0, 0⟩ = getPlayerDimensions ⟨"unknown", 1280, 670⟩ ∧
    parseStreamUrl ⟨"1280x720", 0, 0⟩ "https://www.facebook.com/someone/videos/12345" =
      parseStreamUrl ⟨"unknown", 1280, 670⟩ "https://www.facebook.com/someone/videos/12345" :=
  ⟨by decide, claim_C3 ⟨"1280x720", 0, 0⟩ ⟨"unknown", 1280, 670⟩
    "https://www.facebook.com/someone/videos/12345" (by decide)⟩

/-- C2 counterexample: on the specification example the code places the
width and height parameters between href and show_text, always includes
them, and never appends them at the end as the claim states, so the
produced embed URL differs from the claimed one. -/
theorem claim_C2_cex :
    (parseStreamUrl env720 "https://www.facebook.com/someone/videos/12345").embedUrl =
      some "https://www.facebook.com/plugins/video.php?href=https%3A%2F%2Fwww.facebook.com%2Fsomeone%2Fvideos%2F12345&width=1280&height=670&show_text=false&autoplay=true&allowfullscreen=true" ∧
    ¬("https://www.facebook.com/plugins/video.php?href=https%3A%2F%2Fwww.facebook.com%2Fsomeone%2Fvideos%2F12345&width=1280&height=670&show_text=false&autoplay=true&allowfullscreen=true" =
      "https://www.facebook.com/plugins/video.php?href=https%3A%2F%2Fwww.facebook.com%2Fsomeone%2Fvideos%2F12345&show_text=false&autoplay=true&allowfullscreen=true&width=1280&height=670") :=
  ⟨by decide, by decide⟩

/-- C2 as amended: every Facebook embed URL of the main variant is the
plugin endpoint with the percent-encoded trimmed URL as href, then width
and height (always present, taken from the current player dimensions) and
then the fixed flags; in the auto-mode source variant width and height are
omitted exactly in auto mode, with the flags directly after href, and in
fixed-size mode inserted between href and the flags. -/
theorem claim_C2 (env : Env) (url : String)
    (hp : (parseStreamUrl env url).platform = some Platform.facebook) :
    ((parseStreamUrl env url).embedUrl =
      some ("https://www.facebook.com/plugins/video.php?href=" ++
        encodeURIComponent (jsTrim url) ++
        "&width=" ++ toString (getPlayerDimensions env).1 ++
        "&height=" ++ toString (getPlayerDimensions env).2 ++
        "&show_text=false&autoplay=true&allowfullscreen=true")) ∧
    (∀ (sizeKey u2 : String), P0.buildFacebookEmbedUrl sizeKey u2 true =
      "https://www.facebook.com/plugins/video.php?href=" ++ encodeURIComponent u2 ++
        "&show_text=false&autoplay=true&allowfullscreen=true") ∧
    (∀ (sizeKey u2 : String), P0.buildFacebookEmbedUrl sizeKey u2 false =
      "https://www.facebook.com/plugins/video.php?href=" ++ encodeURIComponent u2 ++
        "&width=" ++ toString (P0.getPlayerDimensions sizeKey).1 ++
        "&height=" ++ toString (P0.getPlayerDimensions sizeKey).2 ++
        "&show_text=false&autoplay=true&allowfullscreen=true") := by
  refine ⟨?_, fun sizeKey u2 => rfl, fun sizeKey u2 => rfl⟩
  rcases parseStreamUrl_cases env url with ⟨-, h⟩ | ⟨-, -, h⟩ | ⟨-, -, -, h⟩ | ⟨-, -, -, -, h⟩ |
    ⟨-, -, -, vid, hv, -, h⟩ | ⟨-, -, -, h⟩
  · rw [h] at hp; exact absurd hp (by simp)
  · rw [h] at hp; exact absurd hp (by simp)
  · rw [h] at hp; exact absurd hp (by simp)
  · rw [h] at hp; exact absurd hp (by simp)
  · rw [h] at hp; exact absurd hp (by simp)
  · rw [h]
    rfl

/-- C2 witness: the amended description evaluated with the 720p player
size on the Facebook specification input, plus the auto-mode omission of
width and height. -/
theorem claim_C2_witness :
    (parseStreamUrl env720 "https://www.facebook.com/someone/videos/12345").embedUrl =
      some ("https://www.facebook.com/plugins/video.php?href=" ++
        encodeURIComponent (jsTrim "https://www.facebook.com/someone/videos/12345") ++
        "&width=" ++ toString (getPlayerDimensions env720).1 ++
        "&height=" ++ toString (getPlayerDimensions env720).2 ++
        "&show_text=false&autoplay=true&allowfullscreen=true") ∧
    P0.buildFacebookEmbedUrl "auto" "https://www.facebook.com/someone/videos/12345" true =
      "https://www.facebook.com/plugins/video.php?href=" ++
        encodeURIComponent "https://www.facebook.com/someone/videos/12345" ++
        "&show_text=false&autoplay=true&allowfullscreen=true" :=
  ⟨(claim_C2 env720 "https://www.facebook.com/someone/videos/12345" (by decide)).1,
   (claim_C2 env720 "https://www.facebook.com/someone/videos/12345" (by decide)).2.1
     "auto" "https://www.facebook.com/someone/videos/12345"⟩

/-- C4 counterexample: a reachable input on which the resolver raises past
its boundary in the UTF-16 code-unit model: a valid Facebook URL followed
by an unpaired high surrogate (code unit 55296) parses and classifies as
Facebook, but encodeURIComponent throws URIError in the Facebook branch,
modelled as the none result of parseStreamUrlJS. -/
theorem claim_C4_cex :
    parseStreamUrlJS env720 (jsOfString "https://www.facebook.com/videos/1" ++ [55296]) = none ∧
    detectPlatform (String.mk (jsToScalars (jsTrimCU
      (jsOfString "https://www.facebook.com/videos/1" ++ [55296])))) = some Platform.facebook :=
  ⟨by decide, by decide⟩

/-- C4 as amended: in the scalar-value model every result is data carrying
one of the four error messages or none; URL-constructor failures are
converted into the Invalid-URL-format outcome; and in the UTF-16 code-unit
model the resolver returns a result (never raises) whenever the trimmed
input holds no unpaired surrogate — the only fault path being
encodeURIComponent on an unpaired surrogate in the Facebook branch. -/
theorem claim_C4 :
    (∀ (env : Env) (url : String),
      (parseStreamUrl env url).error = none ∨
      (parseStreamUrl env url).error = some "Please enter a URL" ∨
      (parseStreamUrl env url).error = some "Invalid URL format" ∨
      (parseStreamUrl env url).error = some "URL must be from YouTube or Facebook" ∨
      (parseStreamUrl env url).error = some "Could not extract YouTube video ID") ∧
    (∀ (env : Env) (url : String), ¬(jsTrim url = "") → parseURL (jsTrim url) = none →
      (parseStreamUrl env url).error = some "Invalid URL format") ∧
    (∀ (env : Env) (s : JSString), hasLoneSurrogate (jsTrimCU s) = false →
      (parseStreamUrlJS env s).isSome = true) := by
  refine ⟨?_, ?_, ?_⟩
  · intro env url
    rcases parseStreamUrl_cases env url with ⟨-, h⟩ | ⟨-, -, h⟩ | ⟨-, -, -, h⟩ | ⟨-, -, -, -, h⟩ |
      ⟨-, -, -, vid, hv, -, h⟩ | ⟨-, -, -, h⟩
    · exact Or.inr (Or.inl (by rw [h]))
    · exact Or.inr (Or.inr (Or.inl (by rw [h])))
    · exact Or.inr (Or.inr (Or.inr (Or.inl (by rw [h]))))
    · exact Or.inr (Or.inr (Or.inr (Or.inr (by rw [h]))))
    · exact Or.inl (by rw [h])
    · exact Or.inl (by rw [h])
  · intro env url h0 hP
    simp only [parseStreamUrl]
    rw [if_neg h0, hP]
  · intro env s hls
    simp only [parseStreamUrlJS]
    by_cases h0 : (jsTrimCU s).isEmpty
    · rw [if_pos h0]
      rfl
    · rw [if_neg h0]
      cases hP : parseURL (String.mk (jsToScalars (jsTrimCU s))) with
      | none => rfl
      | some r =>
        cases hD : detectPlatform (String.mk (jsToScalars (jsTrimCU s))) with
        | none => rfl
        | some pf =>
          cases pf with
          | youtube =>
            cases hX : extractYouTubeVideoId (String.mk (jsToScalars (jsTrimCU s))) with
            | none => rfl
            | some vid =>
              by_cases hv : vid = ""
              · simp only [if_pos hv]
                rfl
              · simp only [if_neg hv]
                rfl
          | facebook =>
            simp only [hls]
            rfl

/-- C4 witness: the amended statement evaluated concretely: a string that
fails URL parsing yields the Invalid-URL-format outcome, and a surrogate-free
input never raises in the code-unit model. -/
theorem claim_C4_witness :
    (parseStreamUrl env720 "http://[").error = some "Invalid URL format" ∧
    (parseStreamUrlJS env720 (jsOfString "https://www.facebook.com/videos/1")).isSome = true :=
  ⟨claim_C4.2.1 env720 "http://[" (by decide) (by decide),
   claim_C4.2.2 env720 (jsOfString "https://www.facebook.com/videos/1") (by decide)⟩

/-- C5 counterexample: on watch?v= with an empty value, rule (a) of the
specified priority list matches (the v parameter is present with value
empty), yet the resolver fails with the extraction error instead of using
that value, because the code treats a falsy (empty) id as failure. -/
theorem claim_C5_cex :
    specYtExtract "https://www.youtube.com/watch?v=" = some "" ∧
    parseStreamUrl env720 "https://www.youtube.com/watch?v=" =
      ⟨some Platform.youtube, none, some "Could not extract YouTube video ID"⟩ :=
  ⟨by decide, by decide⟩

/-- C5 as amended: for every URL classified as YouTube the code extraction
agrees with the specified priority list (v parameter, then youtu.be first
nonempty path segment, then the path pattern, first match winning), and
the resolver fails with the extraction error exactly when no rule matches
or the winning rule yields the empty string (possible only for the v
parameter); in that failure the platform is still YouTube and embedUrl is
null. -/
theorem claim_C5 (env : Env) (url : String)
    (hd : detectPlatform (jsTrim url) = some Platform.youtube) :
    extractYouTubeVideoId (jsTrim url) = specYtExtract (jsTrim url) ∧
    ((parseStreamUrl env url).error = some "Could not extract YouTube video ID" ↔
      (specYtExtract (jsTrim url) = none ∨ specYtExtract (jsTrim url) = some "")) ∧
    ((parseStreamUrl env url).error = some "Could not extract YouTube video ID" →
      (parseStreamUrl env url).platform = some Platform.youtube ∧
      (parseStreamUrl env url).embedUrl = none) := by
  refine ⟨extract_eq_specYt (jsTrim url), ?_, ?_⟩ <;>
    rcases parseStreamUrl_cases env url with ⟨h0, h⟩ | ⟨-, hP, h⟩ | ⟨-, -, hD, h⟩ |
      ⟨-, -, hD, hX, h⟩ | ⟨-, -, hD, vid, hv, hX, h⟩ | ⟨-, -, hD, h⟩
  · rw [h0] at hd
    rw [(by decide : detectPlatform "" = (none : Option Platform))] at hd
    exact absurd hd (by simp)
  · unfold detectPlatform at hd
    rw [hP] at hd
    exact absurd hd (by simp)
  · rw [hD] at hd
    exact absurd hd (by simp)
  · rw [← extract_eq_specYt (jsTrim url)]
    rw [h]
    simp only [true_iff]
    exact hX
  · rw [← extract_eq_specYt (jsTrim url), hX, h]
    simp [hv]
  · rw [hD] at hd
    exact absurd hd (by simp)
  · rw [h0] at hd
    rw [(by decide : detectPlatform "" = (none : Option Platform))] at hd
    exact absurd hd (by simp)
  · unfold detectPlatform at hd
    rw [hP] at hd
    exact absurd hd (by simp)
  · rw [hD] at hd
    exact absurd hd (by simp)
  · rw [h]
    exact fun _hx => ⟨rfl, rfl⟩
  · rw [h]
    simp
  · rw [hD] at hd
    exact absurd hd (by simp)

/-- C5 witness: on watch with no extraction rule matching, the resolver
fails with the extraction error. -/
theorem claim_C5_witness :
    (parseStreamUrl env720 "https://www.youtube.com/watch").error =
      some "Could not extract YouTube video ID" :=
  ((claim_C5 env720 "https://www.youtube.com/watch" (by decide)).2.1).mpr (Or.inl (by decide))

/-- C6: whenever a YouTube id is successfully extracted (and non-empty),
the embed URL is exactly the fixed youtube-nocookie template around the id. -/
theorem claim_C6 (env : Env) (url vid : String)
    (hd : detectPlatform (jsTrim url) = some Platform.youtube)
    (hx : extractYouTubeVideoId (jsTrim url) = some vid) (hv : ¬(vid = "")) :
    parseStreamUrl env url =
      ⟨some Platform.youtube,
       some ("https://www.youtube-nocookie.com/embed/" ++ vid ++
         "?autoplay=1&rel=0&modestbranding=1"),
       none⟩ := by
  rcases parseStreamUrl_cases env url with ⟨h0, h⟩ | ⟨-, hP, h⟩ | ⟨-, -, hD, h⟩ |
    ⟨-, -, hD, hX, h⟩ | ⟨-, -, hD, vid2, hv2, hX, h⟩ | ⟨-, -, hD, h⟩
  · rw [h0] at hd
    rw [(by decide : detectPlatform "" = (none : Option Platform))] at hd
    exact absurd hd (by simp)
  · unfold detectPlatform at hd
    rw [hP] at hd
    exact absurd hd (by simp)
  · rw [hD] at hd
    exact absurd hd (by simp)
  · rcases hX with hX | hX
    · rw [hx] at hX
      exact absurd hX (by simp)
    · rw [hx] at hX
      simp only [Option.some.injEq] at hX
      exact absurd hX hv
  · rw [hX] at hx
    simp only [Option.some.injEq] at hx
    subst hx
    exact h
  · rw [hD] at hd
    exact absurd hd (by simp)

/-- C6 witness: the specification input watch?v=abc123 resolves to the
exact template URL. -/
theorem claim_C6_witness :
    parseStreamUrl env720 "https://www.youtube.com/watch?v=abc123" =
      ⟨some Platform.youtube,
       some "https://www.youtube-nocookie.com/embed/abc123?autoplay=1&rel=0&modestbranding=1",
       none⟩ :=
  (claim_C6 env720 "https://www.youtube.com/watch?v=abc123" "abc123"
    (by decide) (by decide) (by decide)).trans (by decide)

/-- C7: platform classification is determined solely by substring tests on
the lowercased hostname: the detected platform equals the YouTube-first
substring decision on the parsed hostname, the resolver reports exactly
that platform, and when neither family matches it fails with the
unsupported-platform error and a null platform. -/
theorem claim_C7 (env : Env) (url : String) (r : URLRecord)
    (hr : parseURL (jsTrim url) = some r) :
    detectPlatform (jsTrim url) =
      (if isYouTubeHost (lowerStr r.host) then some Platform.youtube
       else if isFacebookHost (lowerStr r.host) then some Platform.facebook
       else none) ∧
    (parseStreamUrl env url).platform = detectPlatform (jsTrim url) ∧
    (detectPlatform (jsTrim url) = none →
      (parseStreamUrl env url).platform = none ∧
      (parseStreamUrl env url).error = some "URL must be from YouTube or Facebook") := by
  refine ⟨detectPlatform_of_parse (jsTrim url) r hr, ?_, ?_⟩ <;>
    rcases parseStreamUrl_cases env url with ⟨h0, h⟩ | ⟨-, hP, h⟩ | ⟨-, -, hD, h⟩ |
      ⟨-, -, hD, hX, h⟩ | ⟨-, -, hD, vid, hv, hX, h⟩ | ⟨-, -, hD, h⟩
  · rw [h0] at hr
    rw [(by decide : parseURL "" = (none : Option URLRecord))] at hr
    exact absurd hr (by simp)
  · rw [hP] at hr
    exact absurd hr (by simp)
  · rw [h, hD]
  · rw [h, hD]
  · rw [h, hD]
  · rw [h, hD]
  · rw [h0] at hr
    rw [(by decide : parseURL "" = (none : Option URLRecord))] at hr
    exact absurd hr (by simp)
  · rw [hP] at hr
    exact absurd hr (by simp)
  · rw [h]
    exact fun _hn => ⟨rfl, rfl⟩
  · rw [hD]
    exact fun hn => absurd hn (by simp)
  · rw [hD]
    exact fun hn => absurd hn (by simp)
  · rw [hD]
    exact fun hn => absurd hn (by simp)

/-- C7 witness: a subdomain hostname containing youtube.com classifies as
YouTube, and a hostname with neither family fails with the
unsupported-platform error and a null platform. -/
theorem claim_C7_witness :
    (parseStreamUrl env720 "https://m.youtube.com/watch?v=xyz").platform =
      detectPlatform "https://m.youtube.com/watch?v=xyz" ∧
    ((parseStreamUrl env720 "https://example.com/video").platform = none ∧
     (parseStreamUrl env720 "https://example.com/video").error =
       some "URL must be from YouTube or Facebook") :=
  ⟨((claim_C7 env720 "https://m.youtube.com/watch?v=xyz"
      ⟨"https", "m.youtube.com", "/watch", "v=xyz"⟩ (by decide)).2.1).trans (by decide),
   (claim_C7 env720 "https://example.com/video"
      ⟨"https", "example.com", "/video", ""⟩ (by decide)).2.2 (by decide)⟩

/-- C10: the YouTube substring checks are evaluated before the Facebook
checks, so any parsed URL whose lowercased hostname passes the YouTube
test classifies as YouTube regardless of any Facebook substrings it also
contains. -/
theorem claim_C10 (url : String) (r : URLRecord) (hr : parseURL url = some r)
    (hy : isYouTubeHost (lowerStr r.host) = true) :
    detectPlatform url = some Platform.youtube := by
  rw [detectPlatform_of_parse url r hr, if_pos hy]

/-- C10 witness: a hostname containing both youtube.com and facebook.com
classifies as YouTube. -/
theorem claim_C10_witness :
    detectPlatform "https://youtube.com.facebook.com/video" = some Platform.youtube ∧
    isFacebookHost (lowerStr "youtube.com.facebook.com") = true :=
  ⟨claim_C10 "https://youtube.com.facebook.com/video"
      ⟨"https", "youtube.com.facebook.com", "/video", ""⟩ (by decide) (by decide),
   by decide⟩

/-- C8 counterexample: the v query parameter is not character-restricted:
watch?v=a.b extracts the id a.b, whose dot lies outside the regex
character class, and the id is inserted verbatim into the embed template
without further escaping. -/
theorem claim_C8_cex :
    extractYouTubeVideoId "https://www.youtube.com/watch?v=a.b" = some "a.b" ∧
    (parseStreamUrl env720 "https://www.youtube.com/watch?v=a.b").embedUrl =
      some "https://www.youtube-nocookie.com/embed/a.b?autoplay=1&rel=0&modestbranding=1" ∧
    '.' ∈ "a.b".data ∧ isIdChar '.' = false :=
  ⟨by decide, by decide, by decide, by decide⟩

/-- C8 as amended: only ids produced by the path-regex rule are restricted
to letters, digits, underscore and hyphen: when neither the v parameter
nor the youtu.be path-segment rule applies, every character of the
extracted id lies in the regex class; ids from the other two rules are
inserted verbatim without any character restriction or escaping. -/
theorem claim_C8 (url vid : String)
    (ha : ytRuleA url = none) (hb : ytRuleB url = none)
    (hx : extractYouTubeVideoId url = some vid) :
    ∀ c ∈ vid.data, isIdChar c = true := by
  rw [extract_eq_specYt] at hx
  unfold specYtExtract at hx
  rw [ha, hb] at hx
  simp only [Option.none_orElse] at hx
  unfold ytRuleC at hx
  cases hP : parseURL url with
  | none => rw [hP] at hx; exact absurd hx (by simp)
  | some r =>
    rw [hP] at hx
    simp only [Option.some_bind, Option.map_eq_some'] at hx
    obtain ⟨run, hrun, hvid⟩ := hx
    subst hvid
    intro c hc
    rw [mkData] at hc
    exact pathRegexCapture_chars _ _ hrun c hc

/-- C8 witness: on the live path form the extracted id abc123 consists
only of regex-class characters. -/
theorem claim_C8_witness :
    ("abc123".data.all isIdChar) = true :=
  List.all_eq_true.mpr (fun c hc =>
    claim_C8 "https://www.youtube.com/live/abc123" "abc123" (by decide) (by decide)
      (by decide) c hc)

/-- C9: percent-decoding the raw href query parameter of every produced
Facebook embed URL yields exactly the trimmed original input URL: the
encodeURIComponent/decodeURIComponent round trip is lossless. -/
theorem claim_C9 (env : Env) (url e : String)
    (hp : (parseStreamUrl env url).platform = some Platform.facebook)
    (he : (parseStreamUrl env url).embedUrl = some e) :
    (rawParamValue e "href").bind decodeURIComponent = some (jsTrim url) := by
  rcases parseStreamUrl_cases env url with ⟨-, h⟩ | ⟨-, -, h⟩ | ⟨-, -, -, h⟩ | ⟨-, -, -, -, h⟩ |
    ⟨-, -, -, vid, hv, -, h⟩ | ⟨-, -, -, h⟩
  · rw [h] at hp; exact absurd hp (by simp)
  · rw [h] at hp; exact absurd hp (by simp)
  · rw [h] at hp; exact absurd hp (by simp)
  · rw [h] at hp; exact absurd hp (by simp)
  · rw [h] at hp; exact absurd hp (by simp)
  · rw [h] at he
    simp only [Option.some.injEq] at he
    subst he
    rw [rawHref_buildFB env (jsTrim url)]
    simp only [Option.some_bind]
    exact decode_encode_uri (jsTrim url)

/-- C9 witness: the round trip evaluated on the specification input. -/
theorem claim_C9_witness :
    (rawParamValue "https://www.facebook.com/plugins/video.php?href=https%3A%2F%2Fwww.facebook.com%2Fsomeone%2Fvideos%2F12345&width=1280&height=670&show_text=false&autoplay=true&allowfullscreen=true" "href").bind
      decodeURIComponent = some "https://www.facebook.com/someone/videos/12345" :=
  (claim_C9 env720 "https://www.facebook.com/someone/videos/12345"
    "https://www.facebook.com/plugins/video.php?href=https%3A%2F%2Fwww.facebook.com%2Fsomeone%2Fvideos%2F12345&width=1280&height=670&show_text=false&autoplay=true&allowfullscreen=true"
    (by decide) (by decide)).trans (by decide)
